import Mathlib

/-!
Shallow embedding of `src/bin/mk-node-defs.py` (kube-toolbox).

Strings are modelled as `List Char` for the parsing components and as
`String` for the rendered cloud-init documents.  Python `float` parsing of
the numeric portion of a size string is modelled exactly as a fraction
(optional sign, integer digits, optional fractional digits); float special
values (`inf`, `nan`), exponent notation, rounding to binary floating point
and digit underscores are not modelled.  `str.isdigit` is modelled for
ASCII digits.
-/

namespace MkNodeDefs

/-- Models Python `str.strip()`: drop leading and trailing whitespace. -/
def pyStrip (s : List Char) : List Char :=
  ((s.dropWhile Char.isWhitespace).reverse.dropWhile Char.isWhitespace).reverse

/-- Models Python `str.isdigit()` for ASCII strings: nonempty and all digits. -/
def pyIsDigit (s : List Char) : Bool :=
  !s.isEmpty && s.all Char.isDigit

/-- Value of a string of decimal digits, as Python `int()` computes it. -/
def digitsToNat (s : List Char) : Nat :=
  s.foldl (fun a c => 10 * a + (c.toNat - 48)) 0

/-- Models Python `str.upper()` (ASCII). -/
def toUpperList (s : List Char) : List Char :=
  s.map Char.toUpper

/-- Models Python `str.endswith(pat)`. -/
def endsWith (pat s : List Char) : Bool :=
  List.isPrefixOf pat.reverse s.reverse

/-- An exact fraction `num / den`, the value of a parsed decimal literal. -/
structure Frac where
  num : Int
  den : Nat
  deriving DecidableEq

/-- The rational value of a fraction. -/
def Frac.val (f : Frac) : ℚ := (f.num : ℚ) / (f.den : ℚ)

/-- Models Python `int(x)` applied to a fractional value: truncation toward
zero. -/
def Frac.trunc (f : Frac) : Int :=
  f.num.sign * ((f.num.natAbs / f.den : Nat) : Int)

/-- Multiplication of a parsed value by an integer constant (`val * 1024`). -/
def Frac.mulNat (f : Frac) (n : Nat) : Frac := ⟨f.num * n, f.den⟩

/-- Division of a parsed value by an integer constant (`val / 1024`). -/
def Frac.divNat (f : Frac) (n : Nat) : Frac := ⟨f.num, f.den * n⟩

/-- Models Python `int(x)` on a rational value: truncation toward zero. -/
def truncQ (q : ℚ) : Int :=
  q.num.sign * ((q.num.natAbs / q.den : Nat) : Int)

/-- Unsigned part of Python `float()` string parsing: decimal digits with an
optional fractional part. -/
def pyFloatNum (s : List Char) : Option Frac :=
  let ip := s.takeWhile Char.isDigit
  let r := s.dropWhile Char.isDigit
  match r with
  | [] => if ip.isEmpty then none else some ⟨(digitsToNat ip : Int), 1⟩
  | '.' :: r2 =>
    let fp := r2.takeWhile Char.isDigit
    let r3 := r2.dropWhile Char.isDigit
    if r3.isEmpty && (!ip.isEmpty || !fp.isEmpty) then
      some ⟨(digitsToNat ip * 10 ^ fp.length + digitsToNat fp : Int), 10 ^ fp.length⟩
    else none
  | _ => none

/-- Models Python `float()` on a string without surrounding whitespace:
an optional sign followed by the unsigned numeric part. -/
def pyFloatCore (s : List Char) : Option Frac :=
  match s with
  | '+' :: r => pyFloatNum r
  | '-' :: r => (pyFloatNum r).map (fun f => ⟨-f.num, f.den⟩)
  | r => pyFloatNum r

/-- Models Python `float()` on a string (which tolerates surrounding whitespace). -/
def pyFloat (s : List Char) : Option Frac :=
  pyFloatCore (pyStrip s)

/-- Translation of `parse_memory` (src/bin/mk-node-defs.py lines 7-41):
returns megabytes, raising `argparse.ArgumentTypeError` (modelled as
`Except.error` with the message) on malformed input. -/
def parse_memory (s : List Char) : Except String Int :=
  let t := pyStrip s
  if pyIsDigit t then .ok (digitsToNat t : Int)
  else
    let u := toUpperList t
    if endsWith ['G', 'B'] u then
      match pyFloat (u.take (u.length - 2)) with
      | some v => .ok (v.mulNat 1024).trunc
      | none => .error ("Invalid memory specification: " ++ String.mk u)
    else if endsWith ['G'] u then
      match pyFloat (u.take (u.length - 1)) with
      | some v => .ok (v.mulNat 1024).trunc
      | none => .error ("Invalid memory specification: " ++ String.mk u)
    else if endsWith ['M', 'B'] u then
      match pyFloat (u.take (u.length - 2)) with
      | some v => .ok v.trunc
      | none => .error ("Invalid memory specification: " ++ String.mk u)
    else if endsWith ['M'] u then
      match pyFloat (u.take (u.length - 1)) with
      | some v => .ok v.trunc
      | none => .error ("Invalid memory specification: " ++ String.mk u)
    else .error "Memory specification must be a number optionally suffixed with M/MB or G/GB"

/-- Translation of `parse_disk_size` (src/bin/mk-node-defs.py lines 43-77):
returns gigabytes; M/MB values are divided by 1024 and floored up to a
minimum of 1. -/
def parse_disk_size (s : List Char) : Except String Int :=
  let u := toUpperList (pyStrip s)
  if pyIsDigit u then .ok (digitsToNat u : Int)
  else if endsWith ['G', 'B'] u then
    match pyFloat (u.take (u.length - 2)) with
    | some v => .ok v.trunc
    | none => .error ("Invalid disk size specification: " ++ String.mk u)
  else if endsWith ['G'] u then
    match pyFloat (u.take (u.length - 1)) with
    | some v => .ok v.trunc
    | none => .error ("Invalid disk size specification: " ++ String.mk u)
  else if endsWith ['M', 'B'] u then
    match pyFloat (u.take (u.length - 2)) with
    | some v => .ok (max 1 (v.divNat 1024).trunc)
    | none => .error ("Invalid disk size specification: " ++ String.mk u)
  else if endsWith ['M'] u then
    match pyFloat (u.take (u.length - 1)) with
    | some v => .ok (max 1 (v.divNat 1024).trunc)
    | none => .error ("Invalid disk size specification: " ++ String.mk u)
  else .error "Disk size must be a number optionally suffixed with M/MB or G/GB"

/-- Split a list of characters on a separator, as Python `str.split(c)`. -/
def splitOnChar (c : Char) : List Char → List (List Char)
  | [] => [[]]
  | x :: xs =>
    match splitOnChar c xs with
    | [] => [[x]]
    | y :: ys => if x = c then [] :: y :: ys else (x :: y) :: ys

/-- Concatenate parts with a separator character; left inverse of `splitOnChar`. -/
def joinSep (c : Char) : List (List Char) → List Char
  | [] => []
  | [x] => x
  | x :: y :: ys => x ++ c :: joinSep c (y :: ys)

/-- Models CPython `ipaddress._parse_octet`: only ASCII digits, at most 3
characters, no leading zero in a multi-character octet, value at most 255. -/
def parse_octet (s : List Char) : Option Nat :=
  if s.isEmpty then none
  else if !s.all Char.isDigit then none
  else if 3 < s.length then none
  else if 1 < s.length && s.head? = some '0' then none
  else
    let v := digitsToNat s
    if v ≤ 255 then some v else none

/-- Models CPython IPv4 address parsing: four dot-separated octets combined
big-endian into the 32-bit integer value of the address. -/
def parse_ipv4 (s : List Char) : Option Nat :=
  match splitOnChar '.' s with
  | [a, b, c, d] =>
    match parse_octet a, parse_octet b, parse_octet c, parse_octet d with
    | some x, some y, some z, some w => some (((x * 256 + y) * 256 + z) * 256 + w)
    | _, _, _, _ => none
  | _ => none

/-- Models CPython `_prefix_from_prefix_string`: the prefix length is a string
of digits whose value is at most 32.  (Dotted netmask/hostmask forms accepted
by CPython after this check fails are not modelled; no claim depends on them.) -/
def parsePrefixLen (p : List Char) : Option Nat :=
  if pyIsDigit p then
    let n := digitsToNat p
    if n ≤ 32 then some n else none
  else none

/-- Models `ipaddress.ip_interface` restricted to IPv4 (IPv6 literals are not
modelled; no claim involves them): an address with an optional `/prefix`,
where a missing prefix defaults to 32.  Returns the address's integer value
(`int(iface.ip)`) and `iface.network.prefixlen`. -/
def ip_interface (s : List Char) : Option (Nat × Nat) :=
  match splitOnChar '/' s with
  | [a] =>
    match parse_ipv4 a with
    | some b => some (b, 32)
    | none => none
  | [a, p] =>
    match parse_ipv4 a, parsePrefixLen p with
    | some b, some n => some (b, n)
    | _, _ => none
  | _ => none

/-- Failure modes of the ip-pattern handling in `main` (lines 162-174):
`indexError` models the uncaught `IndexError` of `args.ip_pattern[-1]` on an
empty pattern; `invalidPattern` models `parser.error("ip-pattern must end
with '+' or '-'")`; `invalidCIDR` models `parser.error("Invalid CIDR IP
address in ip-pattern: ...")`, carrying the offending substring. -/
inductive ResolveErr where
  | indexError : ResolveErr
  | invalidPattern : ResolveErr
  | invalidCIDR (base : List Char) : ResolveErr
  deriving DecidableEq

/-- Translation of the ip-pattern handling in `main` (lines 162-174): the
pattern's last character is the direction and must be `+` or `-`; the rest
is parsed with `ipaddress.ip_interface`. -/
def resolve_cidr (pat : List Char) : Except ResolveErr (Nat × Nat × Char) :=
  match pat.getLast? with
  | none => .error .indexError
  | some c =>
    if c = '+' ∨ c = '-' then
      match ip_interface pat.dropLast with
      | some (b, p) => .ok (b, p, c)
      | none => .error (.invalidCIDR pat.dropLast)
    else .error .invalidPattern

/-- Translation of the per-node address arithmetic in `main` (lines 194-197):
`+` adds the offset to the base address's integer value, `-` subtracts it. -/
def allocate (base : Nat) (dir : Char) (off : Int) : Int :=
  if dir = '+' then (base : Int) + off else (base : Int) - off

/-- Dotted-quad serialization of a 32-bit address value, as
`str(ipaddress.IPv4Address(n))` produces it. -/
def ipv4_str (n : Nat) : List Char :=
  Nat.toDigits 10 (n / 16777216 % 256) ++ '.' ::
  (Nat.toDigits 10 (n / 65536 % 256) ++ '.' ::
  (Nat.toDigits 10 (n / 256 % 256) ++ '.' :: Nat.toDigits 10 (n % 256)))

/-- Result of `str(ipaddress.ip_address(n))`: a dotted-quad string for values
in the IPv4 range, an IPv6 address (serialization not modelled; no claim
inspects it) for values up to 2^128-1, and an uncaught `ValueError` outside
that range. -/
inductive IPAddrResult where
  | v4 (s : List Char) : IPAddrResult
  | v6 : IPAddrResult
  | err : IPAddrResult
  deriving DecidableEq

/-- Models `str(ipaddress.ip_address(n))` in `main` line 198. -/
def ip_address_str (n : Int) : IPAddrResult :=
  if n < 0 then .err
  else if n < 4294967296 then .v4 (ipv4_str n.toNat)
  else if n < 2 ^ 128 then .v6
  else .err

/-- Concatenate parts with the two-character separator `", "`, as Python
`', '.join(parts)`. -/
def joinCommaSpace : List (List Char) → List Char
  | [] => []
  | [x] => x
  | x :: y :: ys => x ++ ',' :: ' ' :: joinCommaSpace (y :: ys)

/-- Translation of the nameserver normalization in `main` line 177:
`', '.join([s.strip() for s in args.nameservers.split(',')])`. -/
def normalize_nameservers (s : List Char) : List Char :=
  joinCommaSpace ((splitOnChar ',' s).map pyStrip)

/-- Translation of `generate_cloud_init` (lines 79-122): the `user-data` and
`meta-data` documents, rendered by literal string interpolation exactly as
the Python f-strings produce them (the chunk boundaries below are arbitrary;
their concatenation is the f-string text). -/
def generate_cloud_init (node_name ip : String) (prefixLen : Nat)
    (router root_password nameservers : String) : String × String :=
  ("#cloud-config\ndisable_root: false\nhostname: " ++ node_name ++ "\n" ++
   "chpasswd:\n  list: |\n    root:" ++ root_password ++
   "\n  expire: false\nssh_pwauth: true\npackages:\n  - nfs-common\nwrite_files:\n  - path: /etc/netplan/00-local.yaml\n    content: |\n      network:\n        version: 2\n        ethernets:\n          enp1s0:\n            dhcp4: false\n            addresses:\n              - " ++
   ip ++ "/" ++ toString prefixLen ++
   "\n            gateway4: " ++ router ++ "\n            " ++
   "nameservers:\n              addresses: [" ++ nameservers ++ "]" ++
   "\n  - path: /etc/ssh/sshd_config.d/00-local.conf\n    content: |\n      PermitRootLogin yes\n      PasswordAuthentication yes\nruncmd:\n  - rm -f /etc/netplan/50-cloud-init.yaml\n  - netplan apply\n  - rm -f /etc/ssh/sshd_config.d/50-cloud-init.conf\n  - rm -f /etc/ssh/sshd_config.d/60-cloudimg-settings.conf\n",
   "instance-id: " ++ node_name ++ "\nlocal-hostname: " ++ node_name ++ "\n")

/-- The command-line inputs of `main` that the modelled logic consumes.
`cpu`, the image paths and the output directory feed only the virt-install
script text and file-system paths, which no claim inspects; file writing
itself is collaborator-owned I/O and is not modelled. -/
structure Args where
  memory : List Char
  disk_size : List Char
  ip_pattern : List Char
  router : String
  nodes : Int
  node_base : Int
  root_password : String
  nameservers : List Char

/-- The per-node data `main` produces before handing it to the file-writing
collaborator: the node name, the allocated address (as integer and as the
serialized dotted quad) and the two rendered cloud-init documents. -/
structure NodeOutput where
  name : String
  ip_int : Int
  ip : String
  user_data : String
  meta_data : String

instance : Inhabited NodeOutput := ⟨⟨"", 0, "", "", ""⟩⟩

/-- Failure modes of `main`: a size error from either parser, a pattern
failure from `resolve_cidr`, an uncaught `ValueError` from
`ipaddress.ip_address` on a negative value, or a non-IPv4 serialization
(values at and above 2^32, which Python renders as IPv6; not modelled). -/
inductive MainErr where
  | invalidSize (msg : String) : MainErr
  | resolveFail (e : ResolveErr) : MainErr
  | addressValueError : MainErr
  | nonIPv4Address : MainErr

/-- One iteration of the generation loop in `main` (lines 191-211) for node
index `i`: name the node, allocate and serialize its address, and render its
cloud-init documents. -/
def mk_node (base prefixLen : Nat) (dir : Char) (node_base : Int)
    (router root_password : String) (ns : List Char) (i : Int) :
    Except MainErr NodeOutput :=
  let node_name := "node" ++ toString i
  let off := i - node_base
  let node_ip_int := allocate base dir off
  match ip_address_str node_ip_int with
  | .v4 s =>
    let docs := generate_cloud_init node_name (String.mk s) prefixLen
      router root_password (String.mk ns)
    .ok { name := node_name, ip_int := node_ip_int, ip := String.mk s,
          user_data := docs.1, meta_data := docs.2 }
  | .v6 => .error .nonIPv4Address
  | .err => .error .addressValueError

/-- Sequential fail-fast loop over `range(start, start + n)`, as the `for`
loop in `main`. -/
def loopM (f : Int → Except MainErr NodeOutput) (start : Int) :
    Nat → Except MainErr (List NodeOutput)
  | 0 => .ok []
  | n + 1 =>
    match f start with
    | .error e => .error e
    | .ok a =>
      match loopM f (start + 1) n with
      | .error e => .error e
      | .ok rest => .ok (a :: rest)

/-- Translation of `main` (lines 124-269) restricted to the validation and
generation logic: parse the sizes, resolve the ip-pattern, normalize the
nameservers, then generate every node in index order.  File writing and the
virt-install script text are collaborator-owned side effects outside the
modelled core. -/
def main (a : Args) : Except MainErr (List NodeOutput) :=
  match parse_memory a.memory with
  | .error m => .error (.invalidSize m)
  | .ok _mem =>
    match parse_disk_size a.disk_size with
    | .error m => .error (.invalidSize m)
    | .ok _disk =>
      match resolve_cidr a.ip_pattern with
      | .error e => .error (.resolveFail e)
      | .ok (base, prefixLen, dir) =>
        let ns := normalize_nameservers a.nameservers
        loopM (mk_node base prefixLen dir a.node_base a.router a.root_password ns)
          a.node_base a.nodes.toNat

example : parse_memory ("2048".toList) = .ok 2048 := by rfl
example : parse_memory ("2G".toList) = .ok 2048 := by rfl
example : parse_memory ("512MB".toList) = .ok 512 := by rfl
example : parse_memory ("-5M".toList) = .ok (-5) := by rfl
example : parse_memory (" 2.5g ".toList) = .ok 2560 := by rfl
example : parse_disk_size ("10G".toList) = .ok 10 := by rfl
example : parse_disk_size ("10240M".toList) = .ok 10 := by rfl
example : parse_disk_size ("512M".toList) = .ok 1 := by rfl
example : parse_disk_size ("-5G".toList) = .ok (-5) := by rfl
example : resolve_cidr ("192.168.1.100/24+".toList) = .ok (3232235876, 24, '+') := by rfl
example : resolve_cidr ("10.0.0.1/0+".toList) = .ok (167772161, 0, '+') := by rfl
example : resolve_cidr ("192.168.1.100+".toList) = .ok (3232235876, 32, '+') := by rfl
example : resolve_cidr ("192.168.1.100/24".toList) = .error .invalidPattern := by rfl
example : resolve_cidr ([]) = .error .indexError := by rfl
example : resolve_cidr ("192.168.301.1/24+".toList) =
    .error (.invalidCIDR ("192.168.301.1/24".toList)) := by rfl
example : ip_address_str 3232235876 = .v4 ("192.168.1.100".toList) := by rfl
example : ip_address_str (-1) = .err := by rfl
example : normalize_nameservers (" 8.8.8.8 ,  8.8.4.4".toList) =
    "8.8.8.8, 8.8.4.4".toList := by rfl

/-! ### Character-level facts -/

/-- ASCII digits are unchanged by `Char.toUpper`. -/
theorem toUpper_of_isDigit (c : Char) (h : c.isDigit = true) : c.toUpper = c := by
  simp only [Char.isDigit, Bool.and_eq_true, decide_eq_true_eq, ge_iff_le,
    UInt32.le_def, BitVec.le_def] at h
  simp only [Char.toUpper, Char.toNat, UInt32.toNat]
  rw [if_neg]
  rintro ⟨h3, -⟩
  simp at h h3
  omega

/-- ASCII digits are not whitespace. -/
theorem not_isWhitespace_of_isDigit (c : Char) (h : c.isDigit = true) :
    c.isWhitespace = false := by
  simp only [Char.isWhitespace, Bool.or_eq_false_iff]
  refine ⟨⟨⟨?_, ?_⟩, ?_⟩, ?_⟩ <;>
    · simp only [decide_eq_false_iff_not]
      rintro rfl
      simp [Char.isDigit] at h

/-- The characters Python `float()` accepts in our model. -/
def numChar (c : Char) : Prop := c = '+' ∨ c = '-' ∨ c = '.' ∨ c.isDigit = true

theorem numChar_toUpper {c : Char} (h : numChar c) : c.toUpper = c := by
  rcases h with rfl | rfl | rfl | h
  · decide
  · decide
  · decide
  · exact toUpper_of_isDigit c h

theorem numChar_not_ws {c : Char} (h : numChar c) : c.isWhitespace = false := by
  rcases h with rfl | rfl | rfl | h
  · decide
  · decide
  · decide
  · exact not_isWhitespace_of_isDigit c h

/-! ### List-level facts about strip, upper and endswith -/

theorem dropWhile_eq_self_of_forall (p : Char → Bool) {l : List Char}
    (h : ∀ c ∈ l, p c = false) : l.dropWhile p = l := by
  cases l with
  | nil => rfl
  | cons x xs => simp [List.dropWhile_cons, h x (List.mem_cons_self x xs)]

theorem pyStrip_eq_self {s : List Char} (h : ∀ c ∈ s, c.isWhitespace = false) :
    pyStrip s = s := by
  unfold pyStrip
  rw [dropWhile_eq_self_of_forall _ h,
    dropWhile_eq_self_of_forall _ (fun c hc => h c (List.mem_reverse.mp hc)),
    List.reverse_reverse]

theorem toUpperList_eq_self {s : List Char} (h : ∀ c ∈ s, numChar c) :
    toUpperList s = s := by
  induction s with
  | nil => rfl
  | cons x xs ih =>
    simp only [toUpperList, List.map_cons]
    rw [numChar_toUpper (h x (List.mem_cons_self x xs))]
    have := ih (fun c hc => h c (List.mem_cons_of_mem x hc))
    simp only [toUpperList] at this
    rw [this]

theorem toUpperList_append (s t : List Char) :
    toUpperList (s ++ t) = toUpperList s ++ toUpperList t := by
  simp [toUpperList]

theorem endsWith_one (d c : Char) (t : List Char) :
    endsWith [d] (t ++ [c]) = (d == c) := by
  simp [endsWith, List.isPrefixOf]

theorem endsWith_two_last (d e c : Char) (t : List Char) :
    endsWith [d, e] (t ++ [c]) = ((e == c) && List.isPrefixOf [d] t.reverse) := by
  simp [endsWith, List.isPrefixOf]

theorem endsWith_two (d e c1 c2 : Char) (t : List Char) :
    endsWith [d, e] (t ++ [c1, c2]) = ((e == c2) && (d == c1)) := by
  have : t ++ [c1, c2] = (t ++ [c1]) ++ [c2] := by simp
  rw [this]
  simp [endsWith, List.isPrefixOf]

theorem take_concat1 (t : List Char) (c : Char) :
    (t ++ [c]).take ((t ++ [c]).length - 1) = t := by
  have h1 : (t ++ [c]).length - 1 = t.length := by simp
  rw [h1, List.take_left]

theorem take_concat2 (t : List Char) (c1 c2 : Char) :
    (t ++ [c1, c2]).take ((t ++ [c1, c2]).length - 2) = t := by
  have h1 : (t ++ [c1, c2]).length - 2 = t.length := by simp
  rw [h1, List.take_left]

/-! ### Facts about the float model -/

theorem pyFloatNum_chars {s : List Char} {f : Frac} (h : pyFloatNum s = some f) :
    ∀ c ∈ s, c = '.' ∨ c.isDigit = true := by
  intro c hc
  unfold pyFloatNum at h
  dsimp only at h
  have hsplit := List.takeWhile_append_dropWhile (p := Char.isDigit) (l := s)
  split at h
  next heq =>
    rw [heq, List.append_nil] at hsplit
    rw [← hsplit] at hc
    exact Or.inr (List.mem_takeWhile_imp hc)
  next r2 heq =>
    split at h
    next hcond =>
      simp only [Bool.and_eq_true, List.isEmpty_iff] at hcond
      have hr2 : r2.takeWhile Char.isDigit = r2 := by
        have := List.takeWhile_append_dropWhile (p := Char.isDigit) (l := r2)
        rw [hcond.1, List.append_nil] at this
        exact this
      rw [heq] at hsplit
      rw [← hsplit] at hc
      rcases List.mem_append.mp hc with h1 | h1
      · exact Or.inr (List.mem_takeWhile_imp h1)
      · rcases List.mem_cons.mp h1 with rfl | h2
        · exact Or.inl rfl
        · rw [← hr2] at h2
          exact Or.inr (List.mem_takeWhile_imp h2)
    next => exact absurd h (by simp)
  next => exact absurd h (by simp)

theorem pyFloatNum_den_pos {s : List Char} {f : Frac} (h : pyFloatNum s = some f) :
    0 < f.den := by
  unfold pyFloatNum at h
  dsimp only at h
  split at h
  next =>
    split at h
    next => exact absurd h (by simp)
    next =>
      simp only [Option.some_inj] at h
      rw [← h]
      exact Nat.one_pos
  next =>
    split at h
    next =>
      simp only [Option.some_inj] at h
      rw [← h]
      exact Nat.pos_pow_of_pos _ (by norm_num)
    next => exact absurd h (by simp)
  next => exact absurd h (by simp)

theorem pyFloatCore_chars {s : List Char} {f : Frac} (h : pyFloatCore s = some f) :
    ∀ c ∈ s, numChar c := by
  intro c hc
  unfold pyFloatCore at h
  split at h
  next r =>
    rcases List.mem_cons.mp hc with rfl | h2
    · exact Or.inl rfl
    · rcases pyFloatNum_chars h c h2 with h3 | h3
      · exact Or.inr (Or.inr (Or.inl h3))
      · exact Or.inr (Or.inr (Or.inr h3))
  next r =>
    rcases List.mem_cons.mp hc with rfl | h2
    · exact Or.inr (Or.inl rfl)
    · rcases Option.map_eq_some'.mp h with ⟨f', hf', -⟩
      rcases pyFloatNum_chars hf' c h2 with h3 | h3
      · exact Or.inr (Or.inr (Or.inl h3))
      · exact Or.inr (Or.inr (Or.inr h3))
  next =>
    rcases pyFloatNum_chars h c hc with h3 | h3
    · exact Or.inr (Or.inr (Or.inl h3))
    · exact Or.inr (Or.inr (Or.inr h3))

theorem pyFloatCore_den_pos {s : List Char} {f : Frac} (h : pyFloatCore s = some f) :
    0 < f.den := by
  unfold pyFloatCore at h
  split at h
  next => exact pyFloatNum_den_pos h
  next =>
    rcases Option.map_eq_some'.mp h with ⟨f', hf', hmap⟩
    have := pyFloatNum_den_pos hf'
    rw [← hmap]
    exact this
  next => exact pyFloatNum_den_pos h

theorem pyFloatCore_not_ws {s : List Char} {f : Frac} (h : pyFloatCore s = some f) :
    ∀ c ∈ s, c.isWhitespace = false :=
  fun c hc => numChar_not_ws (pyFloatCore_chars h c hc)

theorem pyStrip_of_pyFloatCore {s : List Char} {f : Frac}
    (h : pyFloatCore s = some f) : pyStrip s = s :=
  pyStrip_eq_self (pyFloatCore_not_ws h)

theorem toUpperList_of_pyFloatCore {s : List Char} {f : Frac}
    (h : pyFloatCore s = some f) : toUpperList s = s :=
  toUpperList_eq_self (pyFloatCore_chars h)

/-! ### Facts about fractions, their rational values and truncation -/

theorem trunc_eq_truncQ {f : Frac} (hd : 0 < f.den) : f.trunc = truncQ f.val := by
  have hq : f.val = (f.num : ℚ) / (f.den : ℚ) := rfl
  have hdenQ : (0 : ℚ) < (f.den : ℚ) := by exact_mod_cast hd
  have hqd : 0 < f.val.den := f.val.pos
  have hrel : f.val.num * (f.den : Int) = f.num * (f.val.den : Int) := by
    have h1 : (f.val.num : ℚ) / (f.val.den : ℚ) = (f.num : ℚ) / (f.den : ℚ) := by
      rw [Rat.num_div_den]
      exact hq
    have h2 : (f.val.num : ℚ) * (f.den : ℚ) = (f.num : ℚ) * (f.val.den : ℚ) := by
      field_simp at h1
      exact_mod_cast h1
    exact_mod_cast h2
  have hsign : f.num.sign = f.val.num.sign := by
    have h3 := congrArg Int.sign hrel
    rw [Int.sign_mul, Int.sign_mul] at h3
    have h4 : ((f.den : Int)).sign = 1 :=
      Int.sign_eq_one_iff_pos.mpr (by exact_mod_cast hd)
    have h5 : ((f.val.den : Int)).sign = 1 :=
      Int.sign_eq_one_iff_pos.mpr (by exact_mod_cast hqd)
    rw [h4, h5, mul_one, mul_one] at h3
    exact h3.symm
  have habs : f.num.natAbs / f.den = f.val.num.natAbs / f.val.den := by
    have h2 : f.val.num.natAbs * f.den = f.num.natAbs * f.val.den := by
      have := congrArg Int.natAbs hrel
      simpa [Int.natAbs_mul] using this
    calc f.num.natAbs / f.den
        = f.num.natAbs * f.val.den / (f.den * f.val.den) :=
          (Nat.mul_div_mul_right _ _ hqd).symm
      _ = f.val.num.natAbs * f.den / (f.den * f.val.den) := by rw [← h2]
      _ = f.val.num.natAbs * f.den / (f.val.den * f.den) := by
          rw [Nat.mul_comm f.den f.val.den]
      _ = f.val.num.natAbs / f.val.den := Nat.mul_div_mul_right _ _ hd
  unfold Frac.trunc truncQ
  rw [hsign, habs]

theorem val_mulNat (f : Frac) (n : Nat) : (f.mulNat n).val = f.val * n := by
  unfold Frac.val Frac.mulNat
  push_cast
  exact mul_div_right_comm _ _ _

theorem val_divNat (f : Frac) (n : Nat) : (f.divNat n).val = f.val / n := by
  unfold Frac.val Frac.divNat
  push_cast
  exact (div_div _ _ _).symm

theorem den_mulNat (f : Frac) (n : Nat) : (f.mulNat n).den = f.den := rfl

theorem den_divNat (f : Frac) (n : Nat) : (f.divNat n).den = f.den * n := rfl

theorem trunc_nonneg {f : Frac} (h : 0 ≤ f.num) : 0 ≤ f.trunc :=
  mul_nonneg (Int.sign_nonneg.mpr h) (by positivity)

theorem num_nonneg_of_val {f : Frac} (hd : 0 < f.den) (h : 0 ≤ f.val) :
    0 ≤ f.num := by
  have hdenQ : (0 : ℚ) < (f.den : ℚ) := by exact_mod_cast hd
  have h1 : (0 : ℚ) ≤ (f.num : ℚ) / (f.den : ℚ) * (f.den : ℚ) :=
    mul_nonneg h hdenQ.le
  rw [div_mul_cancel₀ _ hdenQ.ne'] at h1
  exact_mod_cast h1

/-! ### Behavior of the size parsers on suffixed numeric strings -/

theorem parse_memory_digits {s : List Char} (h : pyIsDigit (pyStrip s) = true) :
    parse_memory s = .ok (digitsToNat (pyStrip s) : Int) := by
  unfold parse_memory
  dsimp only
  rw [h]
  rfl

theorem parse_disk_size_digits {s : List Char}
    (h : pyIsDigit (toUpperList (pyStrip s)) = true) :
    parse_disk_size s = .ok (digitsToNat (toUpperList (pyStrip s)) : Int) := by
  unfold parse_disk_size
  dsimp only
  rw [h]
  rfl

theorem not_ws_concat1 {t : List Char} {f : Frac} (h : pyFloatCore t = some f)
    {c : Char} (hc : c.isWhitespace = false) :
    ∀ x ∈ t ++ [c], x.isWhitespace = false := by
  intro x hx
  rcases List.mem_append.mp hx with h1 | h1
  · exact numChar_not_ws (pyFloatCore_chars h x h1)
  · rw [List.mem_singleton.mp h1]
    exact hc

theorem not_ws_concat2 {t : List Char} {f : Frac} (h : pyFloatCore t = some f)
    {c1 c2 : Char} (hc1 : c1.isWhitespace = false) (hc2 : c2.isWhitespace = false) :
    ∀ x ∈ t ++ [c1, c2], x.isWhitespace = false := by
  intro x hx
  rcases List.mem_append.mp hx with h1 | h1
  · exact numChar_not_ws (pyFloatCore_chars h x h1)
  · rcases List.mem_cons.mp h1 with rfl | h2
    · exact hc1
    · rw [List.mem_singleton.mp h2]
      exact hc2

theorem pyIsDigit_concat1_false (t : List Char) {c : Char} (hc : c.isDigit = false) :
    pyIsDigit (t ++ [c]) = false := by
  simp [pyIsDigit, hc]

theorem pyIsDigit_concat2_false (t : List Char) (c1 : Char) {c2 : Char}
    (hc : c2.isDigit = false) : pyIsDigit (t ++ [c1, c2]) = false := by
  simp [pyIsDigit, hc]

theorem pyFloat_of_core {t : List Char} {f : Frac} (h : pyFloatCore t = some f) :
    pyFloat t = some f := by
  unfold pyFloat
  rw [pyStrip_of_pyFloatCore h]
  exact h

theorem parse_memory_M {t : List Char} {f : Frac} (h : pyFloatCore t = some f) :
    parse_memory (t ++ ['M']) = .ok f.trunc := by
  have hstrip : pyStrip (t ++ ['M']) = t ++ ['M'] :=
    pyStrip_eq_self (not_ws_concat1 h (by decide))
  have hupper : toUpperList (t ++ ['M']) = t ++ ['M'] := by
    rw [toUpperList_append, toUpperList_of_pyFloatCore h]
    rfl
  have hdig : pyIsDigit (t ++ ['M']) = false := pyIsDigit_concat1_false t (by decide)
  have e1 : endsWith ['G', 'B'] (t ++ ['M']) = false := by
    rw [endsWith_two_last]
    rfl
  have e2 : endsWith ['G'] (t ++ ['M']) = false := by
    rw [endsWith_one]
    rfl
  have e3 : endsWith ['M', 'B'] (t ++ ['M']) = false := by
    rw [endsWith_two_last]
    rfl
  have e4 : endsWith ['M'] (t ++ ['M']) = true := by
    rw [endsWith_one]
    rfl
  unfold parse_memory
  dsimp only
  rw [hstrip, hdig, hupper, e1, e2, e3, e4]
  simp only [Bool.false_eq_true, if_false, if_true, take_concat1, pyFloat_of_core h]

theorem endsWith_one_concat2 (d c1 c2 : Char) (t : List Char) :
    endsWith [d] (t ++ [c1, c2]) = (d == c2) := by
  have hsplit : t ++ [c1, c2] = (t ++ [c1]) ++ [c2] := by simp
  rw [hsplit, endsWith_one]

theorem parse_memory_MB {t : List Char} {f : Frac} (h : pyFloatCore t = some f) :
    parse_memory (t ++ ['M', 'B']) = .ok f.trunc := by
  have hstrip : pyStrip (t ++ ['M', 'B']) = t ++ ['M', 'B'] :=
    pyStrip_eq_self (not_ws_concat2 h (by decide) (by decide))
  have hupper : toUpperList (t ++ ['M', 'B']) = t ++ ['M', 'B'] := by
    rw [toUpperList_append, toUpperList_of_pyFloatCore h]
    rfl
  have hdig : pyIsDigit (t ++ ['M', 'B']) = false :=
    pyIsDigit_concat2_false t 'M' (by decide)
  have e1 : endsWith ['G', 'B'] (t ++ ['M', 'B']) = false := by
    rw [endsWith_two]
    rfl
  have e2 : endsWith ['G'] (t ++ ['M', 'B']) = false := by
    rw [endsWith_one_concat2]
    rfl
  have e3 : endsWith ['M', 'B'] (t ++ ['M', 'B']) = true := by
    rw [endsWith_two]
    rfl
  unfold parse_memory
  dsimp only
  rw [hstrip, hdig, hupper, e1, e2, e3]
  simp only [Bool.false_eq_true, if_false, if_true, take_concat2, pyFloat_of_core h]

theorem parse_memory_G {t : List Char} {f : Frac} (h : pyFloatCore t = some f) :
    parse_memory (t ++ ['G']) = .ok (f.mulNat 1024).trunc := by
  have hstrip : pyStrip (t ++ ['G']) = t ++ ['G'] :=
    pyStrip_eq_self (not_ws_concat1 h (by decide))
  have hupper : toUpperList (t ++ ['G']) = t ++ ['G'] := by
    rw [toUpperList_append, toUpperList_of_pyFloatCore h]
    rfl
  have hdig : pyIsDigit (t ++ ['G']) = false := pyIsDigit_concat1_false t (by decide)
  have e1 : endsWith ['G', 'B'] (t ++ ['G']) = false := by
    rw [endsWith_two_last]
    rfl
  have e2 : endsWith ['G'] (t ++ ['G']) = true := by
    rw [endsWith_one]
    rfl
  unfold parse_memory
  dsimp only
  rw [hstrip, hdig, hupper, e1, e2]
  simp only [Bool.false_eq_true, if_false, if_true, take_concat1, pyFloat_of_core h]

theorem parse_memory_GB {t : List Char} {f : Frac} (h : pyFloatCore t = some f) :
    parse_memory (t ++ ['G', 'B']) = .ok (f.mulNat 1024).trunc := by
  have hstrip : pyStrip (t ++ ['G', 'B']) = t ++ ['G', 'B'] :=
    pyStrip_eq_self (not_ws_concat2 h (by decide) (by decide))
  have hupper : toUpperList (t ++ ['G', 'B']) = t ++ ['G', 'B'] := by
    rw [toUpperList_append, toUpperList_of_pyFloatCore h]
    rfl
  have hdig : pyIsDigit (t ++ ['G', 'B']) = false :=
    pyIsDigit_concat2_false t 'G' (by decide)
  have e1 : endsWith ['G', 'B'] (t ++ ['G', 'B']) = true := by
    rw [endsWith_two]
    rfl
  unfold parse_memory
  dsimp only
  rw [hstrip, hdig, hupper, e1]
  simp only [Bool.false_eq_true, if_false, if_true, take_concat2, pyFloat_of_core h]

theorem parse_disk_size_G {t : List Char} {f : Frac} (h : pyFloatCore t = some f) :
    parse_disk_size (t ++ ['G']) = .ok f.trunc := by
  have hstrip : pyStrip (t ++ ['G']) = t ++ ['G'] :=
    pyStrip_eq_self (not_ws_concat1 h (by decide))
  have hupper : toUpperList (t ++ ['G']) = t ++ ['G'] := by
    rw [toUpperList_append, toUpperList_of_pyFloatCore h]
    rfl
  have hdig : pyIsDigit (t ++ ['G']) = false := pyIsDigit_concat1_false t (by decide)
  have e1 : endsWith ['G', 'B'] (t ++ ['G']) = false := by
    rw [endsWith_two_last]
    rfl
  have e2 : endsWith ['G'] (t ++ ['G']) = true := by
    rw [endsWith_one]
    rfl
  unfold parse_disk_size
  dsimp only
  rw [hstrip, hupper, hdig, e1, e2]
  simp only [Bool.false_eq_true, if_false, if_true, take_concat1, pyFloat_of_core h]

theorem parse_disk_size_GB {t : List Char} {f : Frac} (h : pyFloatCore t = some f) :
    parse_disk_size (t ++ ['G', 'B']) = .ok f.trunc := by
  have hstrip : pyStrip (t ++ ['G', 'B']) = t ++ ['G', 'B'] :=
    pyStrip_eq_self (not_ws_concat2 h (by decide) (by decide))
  have hupper : toUpperList (t ++ ['G', 'B']) = t ++ ['G', 'B'] := by
    rw [toUpperList_append, toUpperList_of_pyFloatCore h]
    rfl
  have hdig : pyIsDigit (t ++ ['G', 'B']) = false :=
    pyIsDigit_concat2_false t 'G' (by decide)
  have e1 : endsWith ['G', 'B'] (t ++ ['G', 'B']) = true := by
    rw [endsWith_two]
    rfl
  unfold parse_disk_size
  dsimp only
  rw [hstrip, hupper, hdig, e1]
  simp only [Bool.false_eq_true, if_false, if_true, take_concat2, pyFloat_of_core h]

theorem parse_disk_size_M {t : List Char} {f : Frac} (h : pyFloatCore t = some f) :
    parse_disk_size (t ++ ['M']) = .ok (max 1 (f.divNat 1024).trunc) := by
  have hstrip : pyStrip (t ++ ['M']) = t ++ ['M'] :=
    pyStrip_eq_self (not_ws_concat1 h (by decide))
  have hupper : toUpperList (t ++ ['M']) = t ++ ['M'] := by
    rw [toUpperList_append, toUpperList_of_pyFloatCore h]
    rfl
  have hdig : pyIsDigit (t ++ ['M']) = false := pyIsDigit_concat1_false t (by decide)
  have e1 : endsWith ['G', 'B'] (t ++ ['M']) = false := by
    rw [endsWith_two_last]
    rfl
  have e2 : endsWith ['G'] (t ++ ['M']) = false := by
    rw [endsWith_one]
    rfl
  have e3 : endsWith ['M', 'B'] (t ++ ['M']) = false := by
    rw [endsWith_two_last]
    rfl
  have e4 : endsWith ['M'] (t ++ ['M']) = true := by
    rw [endsWith_one]
    rfl
  unfold parse_disk_size
  dsimp only
  rw [hstrip, hupper, hdig, e1, e2, e3, e4]
  simp only [Bool.false_eq_true, if_false, if_true, take_concat1, pyFloat_of_core h]

theorem parse_disk_size_MB {t : List Char} {f : Frac} (h : pyFloatCore t = some f) :
    parse_disk_size (t ++ ['M', 'B']) = .ok (max 1 (f.divNat 1024).trunc) := by
  have hstrip : pyStrip (t ++ ['M', 'B']) = t ++ ['M', 'B'] :=
    pyStrip_eq_self (not_ws_concat2 h (by decide) (by decide))
  have hupper : toUpperList (t ++ ['M', 'B']) = t ++ ['M', 'B'] := by
    rw [toUpperList_append, toUpperList_of_pyFloatCore h]
    rfl
  have hdig : pyIsDigit (t ++ ['M', 'B']) = false :=
    pyIsDigit_concat2_false t 'M' (by decide)
  have e1 : endsWith ['G', 'B'] (t ++ ['M', 'B']) = false := by
    rw [endsWith_two]
    rfl
  have e2 : endsWith ['G'] (t ++ ['M', 'B']) = false := by
    rw [endsWith_one_concat2]
    rfl
  have e3 : endsWith ['M', 'B'] (t ++ ['M', 'B']) = true := by
    rw [endsWith_two]
    rfl
  unfold parse_disk_size
  dsimp only
  rw [hstrip, hupper, hdig, e1, e2, e3]
  simp only [Bool.false_eq_true, if_false, if_true, take_concat2, pyFloat_of_core h]

/-! ### Strip is the identity on already-stripped strings extended by a
non-whitespace character -/

theorem length_dropWhile_le (p : Char → Bool) (l : List Char) :
    (l.dropWhile p).length ≤ l.length := by
  induction l with
  | nil => simp
  | cons x xs ih =>
    rw [List.dropWhile_cons]
    split
    · exact le_trans ih (Nat.le_succ _)
    · exact le_refl _

theorem dropWhile_eq_self_of_length {p : Char → Bool} {l : List Char}
    (h : (l.dropWhile p).length = l.length) : l.dropWhile p = l := by
  cases l with
  | nil => rfl
  | cons x xs =>
    rw [List.dropWhile_cons] at h ⊢
    by_cases hp : p x
    · rw [if_pos hp] at h
      have := length_dropWhile_le p xs
      simp at h
      omega
    · rw [if_neg hp]

theorem pyStrip_self_dropWhile {s : List Char} (h : pyStrip s = s) :
    s.dropWhile Char.isWhitespace = s ∧
    s.reverse.dropWhile Char.isWhitespace = s.reverse := by
  unfold pyStrip at h
  have l1 := length_dropWhile_le Char.isWhitespace s
  have l2 := length_dropWhile_le Char.isWhitespace (s.dropWhile Char.isWhitespace).reverse
  have hlen := congrArg List.length h
  simp only [List.length_reverse] at hlen l2
  have e1 : (s.dropWhile Char.isWhitespace).length = s.length := by omega
  have hd1 : s.dropWhile Char.isWhitespace = s := dropWhile_eq_self_of_length e1
  refine ⟨hd1, ?_⟩
  rw [hd1] at h
  have h2 := congrArg List.reverse h
  simpa using h2

theorem pyStrip_concat {t : List Char} (ht : pyStrip t = t) {c : Char}
    (hc : c.isWhitespace = false) : pyStrip (t ++ [c]) = t ++ [c] := by
  obtain ⟨h1, -⟩ := pyStrip_self_dropWhile ht
  unfold pyStrip
  have hd : (t ++ [c]).dropWhile Char.isWhitespace = t ++ [c] := by
    cases t with
    | nil => simp [List.dropWhile_cons, hc]
    | cons x xs =>
      have hx : Char.isWhitespace x = false := by
        by_contra hx
        rw [List.dropWhile_cons, if_pos (by simpa using hx)] at h1
        have := congrArg List.length h1
        have hle := length_dropWhile_le Char.isWhitespace xs
        simp at this
        omega
      simp [List.dropWhile_cons, hx]
  rw [hd]
  have hrev : (t ++ [c]).reverse = c :: t.reverse := by simp
  rw [hrev, List.dropWhile_cons, if_neg (by simp [hc])]
  simp

/-! ### The generation loop -/

theorem loopM_ok {f : Int → Except MainErr NodeOutput} :
    ∀ (n : Nat) (s : Int) (l : List NodeOutput), loopM f s n = .ok l →
      l.length = n ∧ ∀ k : Nat, k < n → ∃ o, l[k]? = some o ∧ f (s + k) = .ok o := by
  intro n
  induction n with
  | zero =>
    intro s l h
    unfold loopM at h
    simp only [Except.ok.injEq] at h
    subst h
    exact ⟨rfl, fun k hk => absurd hk (by omega)⟩
  | succ n ih =>
    intro s l h
    unfold loopM at h
    split at h
    next => exact absurd h (by simp)
    next a ha =>
      split at h
      next => exact absurd h (by simp)
      next rest hrest =>
        simp only [Except.ok.injEq] at h
        subst h
        obtain ⟨hlen, hget⟩ := ih (s + 1) rest hrest
        refine ⟨by simp [hlen], ?_⟩
        intro k hk
        cases k with
        | zero =>
          refine ⟨a, by simp, ?_⟩
          simpa using ha
        | succ k =>
          obtain ⟨o, ho, hfo⟩ := hget k (by omega)
          refine ⟨o, by simpa using ho, ?_⟩
          have harg : s + ((k : Int) + 1) = (s + 1) + (k : Int) := by ring
          rw [show ((k + 1 : Nat) : Int) = (k : Int) + 1 by push_cast; ring, harg]
          exact hfo

/-! ### splitOnChar and joinSep -/

theorem splitOnChar_ne_nil (c : Char) (s : List Char) : splitOnChar c s ≠ [] := by
  cases s with
  | nil => simp [splitOnChar]
  | cons x xs =>
    unfold splitOnChar
    split
    · simp
    · split <;> simp

theorem joinSep_splitOnChar (c : Char) (s : List Char) :
    joinSep c (splitOnChar c s) = s := by
  induction s with
  | nil => rfl
  | cons x xs ih =>
    unfold splitOnChar
    cases hsp : splitOnChar c xs with
    | nil => exact absurd hsp (splitOnChar_ne_nil c xs)
    | cons y ys =>
      rw [hsp] at ih
      dsimp only
      by_cases hx : x = c
      · rw [if_pos hx]
        subst hx
        simp only [joinSep, List.nil_append]
        rw [ih]
      · rw [if_neg hx]
        cases ys with
        | nil =>
          simp only [joinSep] at ih ⊢
          rw [ih]
        | cons z zs =>
          simp only [joinSep, List.cons_append] at ih ⊢
          rw [ih]

theorem splitOnChar_not_mem {c : Char} {s : List Char} (h : c ∉ s) :
    splitOnChar c s = [s] := by
  induction s with
  | nil => rfl
  | cons x xs ih =>
    have hx : ¬(x = c) := fun he => h (he ▸ List.mem_cons_self x xs)
    have hxs : c ∉ xs := fun hm => h (List.mem_cons_of_mem x hm)
    unfold splitOnChar
    rw [ih hxs]
    dsimp only
    rw [if_neg hx]

theorem splitOnChar_append_cons (c : Char) {a : List Char} (ha : c ∉ a)
    (rest : List Char) :
    splitOnChar c (a ++ c :: rest) = a :: splitOnChar c rest := by
  induction a with
  | nil =>
    cases hsp : splitOnChar c rest with
    | nil => exact absurd hsp (splitOnChar_ne_nil c rest)
    | cons y ys => simp [splitOnChar, hsp]
  | cons x a ih =>
    have hx : ¬(x = c) := fun he => ha (he ▸ List.mem_cons_self x a)
    have ha' : c ∉ a := fun hm => ha (List.mem_cons_of_mem x hm)
    cases hsp : splitOnChar c rest with
    | nil => exact absurd hsp (splitOnChar_ne_nil c rest)
    | cons y ys =>
      simp only [List.cons_append]
      unfold splitOnChar
      rw [ih ha']
      rw [hsp]
      dsimp only
      rw [if_neg hx]

/-! ### IPv4 parse/print facts -/

theorem parse_octet_chars {s : List Char} {v : Nat} (h : parse_octet s = some v) :
    ∀ c ∈ s, c.isDigit = true := by
  unfold parse_octet at h
  split at h
  next => exact absurd h (by simp)
  next =>
    split at h
    next => exact absurd h (by simp)
    next hall =>
      intro c hc
      have hall2 : s.all Char.isDigit = true := by simpa using hall
      exact List.all_eq_true.mp hall2 c hc

set_option maxRecDepth 4000 in
theorem octet_roundtrip : ∀ o : Nat, o < 256 →
    parse_octet (Nat.toDigits 10 o) = some o ∧ '.' ∉ Nat.toDigits 10 o := by
  decide

theorem parse_ipv4_of_octets {p3 p2 p1 p0 : List Char} {o3 o2 o1 o0 : Nat}
    (h3 : parse_octet p3 = some o3) (h2 : parse_octet p2 = some o2)
    (h1 : parse_octet p1 = some o1) (h0 : parse_octet p0 = some o0)
    (n3 : '.' ∉ p3) (n2 : '.' ∉ p2) (n1 : '.' ∉ p1) (n0 : '.' ∉ p0) :
    parse_ipv4 (p3 ++ '.' :: (p2 ++ '.' :: (p1 ++ '.' :: p0))) =
      some (((o3 * 256 + o2) * 256 + o1) * 256 + o0) := by
  unfold parse_ipv4
  rw [splitOnChar_append_cons _ n3, splitOnChar_append_cons _ n2,
    splitOnChar_append_cons _ n1, splitOnChar_not_mem n0]
  dsimp only
  rw [h3, h2, h1, h0]

theorem parse_ipv4_roundtrip {n : Nat} (h : n < 4294967296) :
    parse_ipv4 (ipv4_str n) = some n := by
  have h3 := octet_roundtrip (n / 16777216 % 256) (Nat.mod_lt _ (by norm_num))
  have h2 := octet_roundtrip (n / 65536 % 256) (Nat.mod_lt _ (by norm_num))
  have h1 := octet_roundtrip (n / 256 % 256) (Nat.mod_lt _ (by norm_num))
  have h0 := octet_roundtrip (n % 256) (Nat.mod_lt _ (by norm_num))
  unfold ipv4_str
  rw [parse_ipv4_of_octets h3.1 h2.1 h1.1 h0.1 h3.2 h2.2 h1.2 h0.2]
  congr 1
  omega

theorem parse_ipv4_chars {s : List Char} {b : Nat} (h : parse_ipv4 s = some b) :
    ∀ c ∈ s, c = '.' ∨ c.isDigit = true := by
  unfold parse_ipv4 at h
  split at h
  next p3 p2 p1 p0 heq =>
    have hs := joinSep_splitOnChar '.' s
    rw [heq] at hs
    simp only [joinSep] at hs
    split at h
    next h3 h2 h1 h0 =>
      intro c hc
      rw [← hs] at hc
      rcases List.mem_append.mp hc with hm | hm
      · exact Or.inr (parse_octet_chars h3 c hm)
      · rcases List.mem_cons.mp hm with rfl | hm
        · exact Or.inl rfl
        · rcases List.mem_append.mp hm with hm | hm
          · exact Or.inr (parse_octet_chars h2 c hm)
          · rcases List.mem_cons.mp hm with rfl | hm
            · exact Or.inl rfl
            · rcases List.mem_append.mp hm with hm | hm
              · exact Or.inr (parse_octet_chars h1 c hm)
              · rcases List.mem_cons.mp hm with rfl | hm
                · exact Or.inl rfl
                · exact Or.inr (parse_octet_chars h0 c hm)
    next => exact absurd h (by simp)
  next => exact absurd h (by simp)

/-- Decidable substring check: does `needle` occur contiguously in `hay`?
Used to state that an error message does not contain the offending input. -/
def containsSub (needle hay : List Char) : Bool :=
  (List.range (hay.length + 1)).any (fun i => (hay.drop i).take needle.length == needle)

/-- Claim C2: `parseMemory` returns the value unchanged for a digits-only string or
an M/MB-suffixed number and multiplies by 1024 for a G/GB-suffixed number,
truncating toward zero after conversion; `parseMemory("2048") == 2048`,
`parseMemory("2G") == 2048`, `parseMemory("512MB") == 512`, and
`parseMemory("bogus")` fails with the size error. -/
theorem parse_memory_spec :
    (∀ s : List Char, pyIsDigit (pyStrip s) = true →
      parse_memory s = .ok (digitsToNat (pyStrip s) : Int))
    ∧ (∀ (t : List Char) (f : Frac) (q : ℚ), pyFloatCore t = some f → f.val = q →
        parse_memory (t ++ ['M']) = .ok (truncQ q)
        ∧ parse_memory (t ++ ['M', 'B']) = .ok (truncQ q)
        ∧ parse_memory (t ++ ['G']) = .ok (truncQ (q * 1024))
        ∧ parse_memory (t ++ ['G', 'B']) = .ok (truncQ (q * 1024)))
    ∧ parse_memory ("2048".toList) = .ok 2048
    ∧ parse_memory ("2G".toList) = .ok 2048
    ∧ parse_memory ("512MB".toList) = .ok 512
    ∧ parse_memory ("bogus".toList) =
        .error "Memory specification must be a number optionally suffixed with M/MB or G/GB" := by
  refine ⟨fun s h => parse_memory_digits h, ?_, by rfl, by rfl, by rfl, by rfl⟩
  intro t f q hf hval
  subst hval
  have hden := pyFloatCore_den_pos hf
  have hM : f.trunc = truncQ f.val := trunc_eq_truncQ hden
  have hG : (f.mulNat 1024).trunc = truncQ (f.val * 1024) := by
    rw [trunc_eq_truncQ (by rw [den_mulNat]; exact hden), val_mulNat]
    norm_cast
  exact ⟨by rw [parse_memory_M hf, hM], by rw [parse_memory_MB hf, hM],
    by rw [parse_memory_G hf, hG], by rw [parse_memory_GB hf, hG]⟩

/-- Witness for C2 at concrete inputs. -/
theorem parse_memory_spec_witness :
    parse_memory ("7".toList) = .ok 7 ∧ parse_memory ("3M".toList) = .ok 3
    ∧ parse_memory ("3G".toList) = .ok 3072 := by
  have hs := parse_memory_spec.2.1 ("3".toList) ⟨3, 1⟩ (Frac.val ⟨3, 1⟩) (by rfl) rfl
  refine ⟨?_, ?_, ?_⟩
  · rw [parse_memory_spec.1 ("7".toList) (by rfl)]
    rfl
  · have h1 := hs.1
    rw [← trunc_eq_truncQ (by decide)] at h1
    exact h1
  · have h2 := hs.2.2.1
    have hG : ((⟨3, 1⟩ : Frac).mulNat 1024).trunc = truncQ (Frac.val ⟨3, 1⟩ * 1024) := by
      rw [trunc_eq_truncQ (by decide), val_mulNat]
      norm_cast
    rw [← hG] at h2
    exact h2

/-- Claim C3: `parseDiskSize` returns the value unchanged for a digits-only or
G/GB-suffixed string, divides by 1024 truncating toward zero for M/MB with
results floored up to a minimum of 1 GB; `parseDiskSize("10G") == 10`,
`parseDiskSize("10240M") == 10`, `parseDiskSize("512M") == 1`, and
`parseDiskSize("abc")` fails. -/
theorem parse_disk_size_spec :
    (∀ s : List Char, pyIsDigit (toUpperList (pyStrip s)) = true →
      parse_disk_size s = .ok (digitsToNat (toUpperList (pyStrip s)) : Int))
    ∧ (∀ (t : List Char) (f : Frac) (q : ℚ), pyFloatCore t = some f → f.val = q →
        parse_disk_size (t ++ ['G']) = .ok (truncQ q)
        ∧ parse_disk_size (t ++ ['G', 'B']) = .ok (truncQ q)
        ∧ parse_disk_size (t ++ ['M']) = .ok (max 1 (truncQ (q / 1024)))
        ∧ parse_disk_size (t ++ ['M', 'B']) = .ok (max 1 (truncQ (q / 1024))))
    ∧ parse_disk_size ("10G".toList) = .ok 10
    ∧ parse_disk_size ("10240M".toList) = .ok 10
    ∧ parse_disk_size ("512M".toList) = .ok 1
    ∧ parse_disk_size ("abc".toList) =
        .error "Disk size must be a number optionally suffixed with M/MB or G/GB" := by
  refine ⟨fun s h => parse_disk_size_digits h, ?_, by rfl, by rfl, by rfl, by rfl⟩
  intro t f q hf hval
  subst hval
  have hden := pyFloatCore_den_pos hf
  have hG : f.trunc = truncQ f.val := trunc_eq_truncQ hden
  have hM : (f.divNat 1024).trunc = truncQ (f.val / 1024) := by
    rw [trunc_eq_truncQ (by rw [den_divNat]; exact Nat.mul_pos hden (by norm_num)),
      val_divNat]
    norm_cast
  exact ⟨by rw [parse_disk_size_G hf, hG], by rw [parse_disk_size_GB hf, hG],
    by rw [parse_disk_size_M hf, hM], by rw [parse_disk_size_MB hf, hM]⟩

/-- Witness for C3 at concrete inputs. -/
theorem parse_disk_size_spec_witness :
    parse_disk_size ("9".toList) = .ok 9 ∧ parse_disk_size ("20G".toList) = .ok 20
    ∧ parse_disk_size ("2048M".toList) = .ok 2 := by
  have hs := parse_disk_size_spec.2.1 ("20".toList) ⟨20, 1⟩ (Frac.val ⟨20, 1⟩) (by rfl) rfl
  have hs2 := parse_disk_size_spec.2.1 ("2048".toList) ⟨2048, 1⟩ (Frac.val ⟨2048, 1⟩)
    (by rfl) rfl
  refine ⟨?_, ?_, ?_⟩
  · rw [parse_disk_size_spec.1 ("9".toList) (by rfl)]
    rfl
  · have h1 := hs.1
    rw [← trunc_eq_truncQ (by decide)] at h1
    exact h1
  · have h2 := hs2.2.2.1
    have hM : ((⟨2048, 1⟩ : Frac).divNat 1024).trunc =
        truncQ (Frac.val ⟨2048, 1⟩ / 1024) := by
      rw [trunc_eq_truncQ (by decide), val_divNat]
      norm_cast
    rw [← hM] at h2
    exact h2

/-- Claim C4 (amended): both parsers are total into a value or a size error; when a
recognized suffix carries a non-numeric numeric portion the message names the
(stripped, uppercased) offending string, while an unrecognized suffix yields
a fixed grammar message that does not name the input. -/
theorem size_errors_spec :
    (∀ s : List Char,
      (∃ n, parse_memory s = .ok n) ∨ (∃ m, parse_memory s = .error m))
    ∧ (∀ s : List Char,
      (∃ n, parse_disk_size s = .ok n) ∨ (∃ m, parse_disk_size s = .error m))
    ∧ (∀ t : List Char, pyStrip t = t → pyFloat (toUpperList t) = none →
        parse_memory (t ++ ['G']) =
          .error ("Invalid memory specification: " ++ String.mk (toUpperList t ++ ['G'])))
    ∧ (∀ s : List Char, pyIsDigit (pyStrip s) = false →
        endsWith ['G', 'B'] (toUpperList (pyStrip s)) = false →
        endsWith ['G'] (toUpperList (pyStrip s)) = false →
        endsWith ['M', 'B'] (toUpperList (pyStrip s)) = false →
        endsWith ['M'] (toUpperList (pyStrip s)) = false →
        parse_memory s = .error
          "Memory specification must be a number optionally suffixed with M/MB or G/GB") := by
  refine ⟨?_, ?_, ?_, ?_⟩
  · intro s
    cases h : parse_memory s with
    | ok n => exact Or.inl ⟨n, rfl⟩
    | error m => exact Or.inr ⟨m, rfl⟩
  · intro s
    cases h : parse_disk_size s with
    | ok n => exact Or.inl ⟨n, rfl⟩
    | error m => exact Or.inr ⟨m, rfl⟩
  · intro t ht hfl
    have hstrip : pyStrip (t ++ ['G']) = t ++ ['G'] := pyStrip_concat ht (by decide)
    have hdig : pyIsDigit (t ++ ['G']) = false := pyIsDigit_concat1_false t (by decide)
    have hupper : toUpperList (t ++ ['G']) = toUpperList t ++ ['G'] := by
      rw [toUpperList_append]
      rfl
    have e1 : endsWith ['G', 'B'] (toUpperList t ++ ['G']) = false := by
      rw [endsWith_two_last]
      rfl
    have e2 : endsWith ['G'] (toUpperList t ++ ['G']) = true := by
      rw [endsWith_one]
      rfl
    unfold parse_memory
    dsimp only
    rw [hstrip, hdig, hupper, e1, e2]
    simp only [Bool.false_eq_true, if_false, if_true, take_concat1, hfl]
  · intro s h0 h1 h2 h3 h4
    unfold parse_memory
    dsimp only
    rw [h0, h1, h2, h3, h4]
    simp only [Bool.false_eq_true, if_false]

/-- Witness for C4 at concrete inputs. -/
theorem size_errors_spec_witness :
    parse_memory ("xG".toList) = .error "Invalid memory specification: XG"
    ∧ parse_memory ("bogus".toList) =
        .error "Memory specification must be a number optionally suffixed with M/MB or G/GB" := by
  constructor
  · exact size_errors_spec.2.2.1 ("x".toList) (by rfl) (by rfl)
  · exact size_errors_spec.2.2.2 ("bogus".toList) (by rfl) (by rfl) (by rfl)
      (by rfl) (by rfl)

/-- Counterexample for C4 as stated: the unrecognized-suffix failure message
does not name the offending string `"bogus"`. -/
theorem size_error_message_counterexample :
    parse_memory ("bogus".toList) =
      .error "Memory specification must be a number optionally suffixed with M/MB or G/GB"
    ∧ containsSub ("bogus".toList)
        ("Memory specification must be a number optionally suffixed with M/MB or G/GB".toList)
        = false :=
  ⟨rfl, by rfl⟩

/-- Claim C7 (amended): on success both parsers return an integer, and the result
is non-negative whenever the numeric portion is non-negative (digits-only
strings, and suffixed numbers with non-negative value); disk M/MB conversions
are always at least 1.  A negative suffixed numeric portion, which the
parsers accept, yields a negative result. -/
theorem size_nonneg_spec :
    (∀ s : List Char, pyIsDigit (pyStrip s) = true →
      ∃ n : Int, parse_memory s = .ok n ∧ 0 ≤ n)
    ∧ (∀ s : List Char, pyIsDigit (toUpperList (pyStrip s)) = true →
      ∃ n : Int, parse_disk_size s = .ok n ∧ 0 ≤ n)
    ∧ (∀ (t : List Char) (f : Frac), pyFloatCore t = some f → 0 ≤ f.val →
        (∃ n, parse_memory (t ++ ['M']) = .ok n ∧ 0 ≤ n)
        ∧ (∃ n, parse_memory (t ++ ['M', 'B']) = .ok n ∧ 0 ≤ n)
        ∧ (∃ n, parse_memory (t ++ ['G']) = .ok n ∧ 0 ≤ n)
        ∧ (∃ n, parse_memory (t ++ ['G', 'B']) = .ok n ∧ 0 ≤ n)
        ∧ (∃ n, parse_disk_size (t ++ ['G']) = .ok n ∧ 0 ≤ n)
        ∧ (∃ n, parse_disk_size (t ++ ['G', 'B']) = .ok n ∧ 0 ≤ n))
    ∧ (∀ (t : List Char) (f : Frac), pyFloatCore t = some f →
        (∃ n, parse_disk_size (t ++ ['M']) = .ok n ∧ 1 ≤ n)
        ∧ (∃ n, parse_disk_size (t ++ ['M', 'B']) = .ok n ∧ 1 ≤ n)) := by
  refine ⟨?_, ?_, ?_, ?_⟩
  · intro s h
    exact ⟨_, parse_memory_digits h, Int.natCast_nonneg _⟩
  · intro s h
    exact ⟨_, parse_disk_size_digits h, Int.natCast_nonneg _⟩
  · intro t f hf hq
    have hnum : 0 ≤ f.num := num_nonneg_of_val (pyFloatCore_den_pos hf) hq
    have hmul : 0 ≤ (f.mulNat 1024).num :=
      mul_nonneg hnum (by positivity)
    exact ⟨⟨_, parse_memory_M hf, trunc_nonneg hnum⟩,
      ⟨_, parse_memory_MB hf, trunc_nonneg hnum⟩,
      ⟨_, parse_memory_G hf, trunc_nonneg hmul⟩,
      ⟨_, parse_memory_GB hf, trunc_nonneg hmul⟩,
      ⟨_, parse_disk_size_G hf, trunc_nonneg hnum⟩,
      ⟨_, parse_disk_size_GB hf, trunc_nonneg hnum⟩⟩
  · intro t f hf
    exact ⟨⟨_, parse_disk_size_M hf, le_max_left 1 _⟩,
      ⟨_, parse_disk_size_MB hf, le_max_left 1 _⟩⟩

/-- Witness for C7 at concrete inputs. -/
theorem size_nonneg_spec_witness :
    (∃ n : Int, parse_memory ("5".toList) = .ok n ∧ 0 ≤ n)
    ∧ (∃ n : Int, parse_disk_size ("7M".toList) = .ok n ∧ 1 ≤ n) := by
  refine ⟨size_nonneg_spec.1 ("5".toList) (by rfl), ?_⟩
  exact (size_nonneg_spec.2.2.2 ("7".toList) ⟨7, 1⟩ (by rfl)).1

/-- Counterexample for C7 as stated: `parse_memory` succeeds on `"-5M"` with
a negative result, violating the non-negativity invariant. -/
theorem size_nonneg_counterexample :
    parse_memory ("-5M".toList) = .ok (-5) ∧ (-5 : Int) < 0 :=
  ⟨rfl, by decide⟩

/-- Claim C5 (amended): `resolve_cidr` accepts exactly the strings whose prefix
part `ipaddress.ip_interface` accepts: a valid dotted-quad IPv4 address with
an optional `/prefix` in 0..32, a missing prefix defaulting to 32; any other
prefix part fails with `InvalidCIDRError` naming the substring. -/
theorem resolve_cidr_spec :
    (∀ (s : List Char) (b : Nat), parse_ipv4 s = some b →
      ip_interface s = some (b, 32))
    ∧ (∀ (s : List Char) (d : Char), d = '+' ∨ d = '-' →
        (∀ b p, ip_interface s = some (b, p) →
          resolve_cidr (s ++ [d]) = .ok (b, p, d))
        ∧ (ip_interface s = none →
          resolve_cidr (s ++ [d]) = .error (.invalidCIDR s))) := by
  constructor
  · intro s b h
    have hslash : '/' ∉ s := by
      intro hm
      rcases parse_ipv4_chars h '/' hm with h1 | h1
      · exact absurd h1 (by decide)
      · exact absurd h1 (by decide)
    unfold ip_interface
    rw [splitOnChar_not_mem hslash]
    dsimp only
    rw [h]
  · intro s d hd
    constructor
    · intro b p hip
      unfold resolve_cidr
      rw [List.getLast?_concat, List.dropLast_concat]
      dsimp only
      rw [if_pos hd, hip]
    · intro hip
      unfold resolve_cidr
      rw [List.getLast?_concat, List.dropLast_concat]
      dsimp only
      rw [if_pos hd, hip]

/-- Witness for C5 at concrete inputs. -/
theorem resolve_cidr_spec_witness :
    resolve_cidr ("192.168.1.100/24+".toList) = .ok (3232235876, 24, '+')
    ∧ resolve_cidr ("10.0.0.999/24-".toList) =
        .error (.invalidCIDR ("10.0.0.999/24".toList)) := by
  constructor
  · exact (resolve_cidr_spec.2 ("192.168.1.100/24".toList) '+' (Or.inl rfl)).1
      3232235876 24 (by rfl)
  · exact (resolve_cidr_spec.2 ("10.0.0.999/24".toList) '-' (Or.inr rfl)).2 (by rfl)

/-- Counterexample for C5 as stated: an address without an explicit `/prefix`
is accepted (with the prefix defaulting to 32), not rejected. -/
theorem resolve_cidr_no_explicit_len_counterexample :
    resolve_cidr ("192.168.1.100+".toList) = .ok (3232235876, 32, '+') := by rfl

/-- Claim C6 (amended): whenever the allocated integer lies in the IPv4 range
[0, 2^32), it re-serializes without failure to a dotted-quad string that
parses back to the same value; no wraparound or bounds check is applied, so
values outside that range fail to serialize as IPv4 instead. -/
theorem allocate_serialize_spec :
    ∀ (base : Nat) (dir : Char) (off : Int),
      0 ≤ allocate base dir off → allocate base dir off < 4294967296 →
      ip_address_str (allocate base dir off) =
        .v4 (ipv4_str (allocate base dir off).toNat)
      ∧ parse_ipv4 (ipv4_str (allocate base dir off).toNat) =
          some (allocate base dir off).toNat := by
  intro base dir off h0 h1
  constructor
  · unfold ip_address_str
    rw [if_neg (by omega), if_pos h1]
  · exact parse_ipv4_roundtrip (by omega)

/-- Witness for C6 at a concrete allocation. -/
theorem allocate_serialize_spec_witness :
    ip_address_str (allocate 3232235876 '+' 1) = .v4 ("192.168.1.101".toList)
    ∧ parse_ipv4 ("192.168.1.101".toList) = some 3232235877 := by
  obtain ⟨ha, hb⟩ := allocate_serialize_spec 3232235876 '+' 1 (by decide) (by decide)
  exact ⟨ha, hb⟩

/-- Counterexample for C6 as stated: with base address 0.0.0.0 and direction
`-`, the non-negative offset 1 produces the integer -1, on which
`ipaddress.ip_address` raises instead of serializing a dotted quad. -/
theorem allocate_serialize_counterexample :
    allocate 0 '-' 1 = -1 ∧ ip_address_str (allocate 0 '-' 1) = .err :=
  ⟨rfl, rfl⟩

/-- Claim C8 (amended): every nonempty pattern not ending in `+` or `-` makes
`resolve_cidr` fail with `InvalidPatternError`, and `main` then fails before
generating any node (it produces an error, hence zero outputs); the empty
pattern instead raises an uncaught `IndexError`. -/
theorem pattern_direction_spec :
    ∀ (p : List Char) (c : Char), p.getLast? = some c → c ≠ '+' → c ≠ '-' →
      resolve_cidr p = .error .invalidPattern
      ∧ ∀ a : Args, a.ip_pattern = p → ∃ e, main a = .error e := by
  intro p c hl h1 h2
  have hres : resolve_cidr p = .error .invalidPattern := by
    unfold resolve_cidr
    rw [hl]
    dsimp only
    rw [if_neg]
    rintro (rfl | rfl)
    · exact h1 rfl
    · exact h2 rfl
  refine ⟨hres, ?_⟩
  intro a ha
  cases hm : parse_memory a.memory with
  | error m =>
    refine ⟨.invalidSize m, ?_⟩
    unfold main
    rw [hm]
  | ok vm =>
    cases hd : parse_disk_size a.disk_size with
    | error m =>
      refine ⟨.invalidSize m, ?_⟩
      unfold main
      rw [hm, hd]
    | ok vd =>
      refine ⟨.resolveFail .invalidPattern, ?_⟩
      unfold main
      rw [hm, hd, ha, hres]

/-- Counterexample for C8 as stated: the empty pattern does not produce
`InvalidPatternError`; `args.ip_pattern[-1]` raises an `IndexError`. -/
theorem pattern_direction_counterexample :
    resolve_cidr ([] : List Char) = .error .indexError
    ∧ ResolveErr.indexError ≠ ResolveErr.invalidPattern :=
  ⟨rfl, by decide⟩

/-- Example request: pattern `192.168.1.100/24+`, node base 1, three nodes. -/
def argsPlusEx : Args :=
  { memory := "2048".toList, disk_size := "10G".toList,
    ip_pattern := "192.168.1.100/24+".toList, router := "192.168.1.1",
    nodes := 3, node_base := 1, root_password := "pw",
    nameservers := "8.8.8.8,8.8.4.4".toList }

/-- Example request: same as `argsPlusEx` but with direction `-`. -/
def argsMinusEx : Args :=
  { argsPlusEx with ip_pattern := "192.168.1.100/24-".toList }

/-- Claim C1: the node at loop offset `k` (index `nodeBase + k`) is assigned the IP
whose integer value is `base + k` under `+` and `base - k` under `-` (the
offset for node index `i` being `i - nodeBase`), so the first generated node
maps exactly to the base address; concretely, `192.168.1.100/24` with node
base 1 and nodes 1..3 yields .100/.101/.102 under `+` and .100/.99/.98
under `-`. -/
theorem main_ip_allocation :
    (∀ (a : Args) (base prefixLen : Nat) (dir : Char) (outs : List NodeOutput),
      resolve_cidr a.ip_pattern = .ok (base, prefixLen, dir) →
      main a = .ok outs →
      ∀ k : Nat, k < outs.length →
        (outs[k]?).map (fun o => o.ip_int) =
          some (if dir = '+' then (base : Int) + k else (base : Int) - k))
    ∧ (main argsPlusEx).map (fun l => l.map (fun o => o.ip)) =
        .ok ["192.168.1.100", "192.168.1.101", "192.168.1.102"]
    ∧ (main argsMinusEx).map (fun l => l.map (fun o => o.ip)) =
        .ok ["192.168.1.100", "192.168.1.99", "192.168.1.98"] := by
  refine ⟨?_, by rfl, by rfl⟩
  intro a base prefixLen dir outs hres hmain k hk
  unfold main at hmain
  split at hmain
  next => exact absurd hmain (by simp)
  next vm hm =>
    split at hmain
    next => exact absurd hmain (by simp)
    next vd hd =>
      split at hmain
      next => exact absurd hmain (by simp)
      next b2 p2 d2 hres2 =>
        rw [hres] at hres2
        simp only [Except.ok.injEq, Prod.mk.injEq] at hres2
        obtain ⟨hb, hp, hdir⟩ := hres2
        subst hb
        subst hp
        subst hdir
        obtain ⟨hlen, hget⟩ := loopM_ok _ _ _ hmain
        rw [hlen] at hk
        obtain ⟨o, ho, hfo⟩ := hget k hk
        rw [ho]
        unfold mk_node at hfo
        dsimp only at hfo
        split at hfo
        next s hs =>
          simp only [Except.ok.injEq] at hfo
          rw [← hfo]
          simp only [Option.map_some']
          congr 1
          unfold allocate
          have harg : a.node_base + (k : Int) - a.node_base = (k : Int) := by ring
          rw [harg]
        next => exact absurd hfo (by simp)
        next => exact absurd hfo (by simp)

/-- The node list generated for `argsPlusEx`. -/
def outsPlusEx : List NodeOutput :=
  match main argsPlusEx with
  | .ok l => l
  | .error _ => []

/-- Witness for C1 at the concrete `+` request. -/
theorem main_ip_allocation_witness :
    (outsPlusEx[0]?).map (fun o => o.ip_int) = some 3232235876
    ∧ (outsPlusEx[2]?).map (fun o => o.ip_int) = some 3232235878 := by
  have hmain : main argsPlusEx = .ok outsPlusEx := by rfl
  have hres : resolve_cidr argsPlusEx.ip_pattern = .ok (3232235876, 24, '+') := by rfl
  have hlen : outsPlusEx.length = 3 := by rfl
  have h0 := main_ip_allocation.1 argsPlusEx 3232235876 24 '+' outsPlusEx hres hmain
    0 (by rw [hlen]; norm_num)
  have h2 := main_ip_allocation.1 argsPlusEx 3232235876 24 '+' outsPlusEx hres hmain
    2 (by rw [hlen]; norm_num)
  constructor
  · rw [h0]
    norm_num
  · rw [h2]
    norm_num

/-- Claim C9: the rendered user-data carries the node name as the `hostname:`
value, and the rendered meta-data sets `instance-id` and `local-hostname` to
exactly that node name. -/
theorem cloud_init_hostname_spec :
    ∀ (node_name ip : String) (prefixLen : Nat) (router pw ns : String),
      (∃ rest, (generate_cloud_init node_name ip prefixLen router pw ns).1 =
        "#cloud-config\ndisable_root: false\nhostname: " ++ node_name ++ "\n" ++ rest)
      ∧ (generate_cloud_init node_name ip prefixLen router pw ns).2 =
        "instance-id: " ++ node_name ++ "\nlocal-hostname: " ++ node_name ++ "\n" := by
  intro node_name ip prefixLen router pw ns
  refine ⟨⟨"chpasswd:\n  list: |\n    root:" ++ pw ++
    "\n  expire: false\nssh_pwauth: true\npackages:\n  - nfs-common\nwrite_files:\n  - path: /etc/netplan/00-local.yaml\n    content: |\n      network:\n        version: 2\n        ethernets:\n          enp1s0:\n            dhcp4: false\n            addresses:\n              - " ++
    ip ++ "/" ++ toString prefixLen ++
    "\n            gateway4: " ++ router ++ "\n            " ++
    "nameservers:\n              addresses: [" ++ ns ++ "]" ++
    "\n  - path: /etc/ssh/sshd_config.d/00-local.conf\n    content: |\n      PermitRootLogin yes\n      PasswordAuthentication yes\nruncmd:\n  - rm -f /etc/netplan/50-cloud-init.yaml\n  - netplan apply\n  - rm -f /etc/ssh/sshd_config.d/50-cloud-init.conf\n  - rm -f /etc/ssh/sshd_config.d/60-cloudimg-settings.conf\n", ?_⟩, rfl⟩
  simp only [generate_cloud_init, String.append_assoc]

/-- Claim C10: the netplan `addresses:` list in every generated node's user-data
contains the nameserver input normalized by `main`: split on commas, each
entry stripped, rejoined with comma-space. -/
theorem nameserver_normalization_spec :
    ∀ (a : Args) (outs : List NodeOutput), main a = .ok outs →
      ∀ o ∈ outs, ∃ pre suf, o.user_data =
        pre ++ ("nameservers:\n              addresses: [" ++
          String.mk (normalize_nameservers a.nameservers) ++ "]") ++ suf := by
  intro a outs hmain o ho
  unfold main at hmain
  split at hmain
  next => exact absurd hmain (by simp)
  next vm hm =>
    split at hmain
    next => exact absurd hmain (by simp)
    next vd hd =>
      split at hmain
      next => exact absurd hmain (by simp)
      next b p d hres =>
        obtain ⟨hlen, hget⟩ := loopM_ok _ _ _ hmain
        obtain ⟨k, hk⟩ := List.getElem?_of_mem ho
        have hklt : k < a.nodes.toNat := by
          rcases List.getElem?_eq_some.mp hk with ⟨h1, -⟩
          omega
        obtain ⟨o', ho', hfo⟩ := hget k hklt
        rw [hk] at ho'
        have hoo : o' = o := (Option.some_inj.mp ho').symm
        subst hoo
        unfold mk_node at hfo
        dsimp only at hfo
        split at hfo
        next s hs =>
          simp only [Except.ok.injEq] at hfo
          rw [← hfo]
          refine ⟨"#cloud-config\ndisable_root: false\nhostname: " ++
            ("node" ++ toString (a.node_base + (k : Int))) ++ "\n" ++
            "chpasswd:\n  list: |\n    root:" ++ a.root_password ++
            "\n  expire: false\nssh_pwauth: true\npackages:\n  - nfs-common\nwrite_files:\n  - path: /etc/netplan/00-local.yaml\n    content: |\n      network:\n        version: 2\n        ethernets:\n          enp1s0:\n            dhcp4: false\n            addresses:\n              - " ++
            String.mk s ++ "/" ++ toString p ++
            "\n            gateway4: " ++ a.router ++ "\n            ",
            "\n  - path: /etc/ssh/sshd_config.d/00-local.conf\n    content: |\n      PermitRootLogin yes\n      PasswordAuthentication yes\nruncmd:\n  - rm -f /etc/netplan/50-cloud-init.yaml\n  - netplan apply\n  - rm -f /etc/ssh/sshd_config.d/50-cloud-init.conf\n  - rm -f /etc/ssh/sshd_config.d/60-cloudimg-settings.conf\n", ?_⟩
          simp only [generate_cloud_init, String.append_assoc]
        next => exact absurd hfo (by simp)
        next => exact absurd hfo (by simp)

/-- Example request whose raw nameserver input carries irregular spacing. -/
def argsNsEx : Args :=
  { argsPlusEx with nodes := 1, nameservers := " 8.8.8.8 ,  1.1.1.1".toList }

/-- The node list generated for `argsNsEx`. -/
def outsNsEx : List NodeOutput :=
  match main argsNsEx with
  | .ok l => l
  | .error _ => []

/-- Witness for C10: the single node of `argsNsEx` embeds the normalized
nameserver list. -/
theorem nameserver_normalization_spec_witness :
    ∃ pre suf, outsNsEx.headI.user_data =
      pre ++ ("nameservers:\n              addresses: [" ++
        String.mk (normalize_nameservers argsNsEx.nameservers) ++ "]") ++ suf := by
  have hmain : main argsNsEx = .ok outsNsEx := by rfl
  cases he : outsNsEx with
  | nil =>
    have hlen : outsNsEx.length = 1 := by rfl
    rw [he] at hlen
    simp at hlen
  | cons o rest =>
    have hmem : o ∈ outsNsEx := by
      rw [he]
      exact List.mem_cons_self o rest
    have h := nameserver_normalization_spec argsNsEx outsNsEx hmain o hmem
    simpa [List.headI] using h

/-- Example request whose pattern lacks the trailing direction marker. -/
def argsNoDirEx : Args :=
  { argsPlusEx with ip_pattern := "192.168.1.100/24".toList }

/-- Witness for C8 at the concrete direction-less pattern. -/
theorem pattern_direction_spec_witness :
    resolve_cidr ("192.168.1.100/24".toList) = .error .invalidPattern
    ∧ ∃ e, main argsNoDirEx = .error e := by
  obtain ⟨h1, h2⟩ := pattern_direction_spec ("192.168.1.100/24".toList) '4' (by rfl)
    (by decide) (by decide)
  exact ⟨h1, h2 argsNoDirEx rfl⟩

end MkNodeDefs
